import Mathlib

/-!
Verification development for the code-review-swarm aggregation engine
(`code_review_swarm.py`).  The Python values flowing through
`_aggregate_reviews`, `_get_agent_review` and `review_code` are modelled by
the inductive type `PyVal`; the aggregation pipeline is translated function
by function, with Python exceptions made explicit (`Except` for the raises
that escape, early-return flags for the per-result `try`/`except`).
-/

/-- Model of the Python values that reach the aggregation code: numbers,
strings, lists, and string-keyed dicts (a dict is its ordered list of
key/value pairs, as produced by insertion). -/
inductive PyVal where
  | int (n : Int)
  | str (s : String)
  | list (xs : List PyVal)
  | dict (kvs : List (String × PyVal))

mutual
def pyBeq : PyVal → PyVal → Bool
  | PyVal.int a, PyVal.int b => a == b
  | PyVal.str a, PyVal.str b => a == b
  | PyVal.list as, PyVal.list bs => pyBeqList as bs
  | PyVal.dict as, PyVal.dict bs => pyBeqDict as bs
  | _, _ => false
def pyBeqList : List PyVal → List PyVal → Bool
  | [], [] => true
  | a :: as, b :: bs => pyBeq a b && pyBeqList as bs
  | _, _ => false
def pyBeqDict : List (String × PyVal) → List (String × PyVal) → Bool
  | [], [] => true
  | (k, v) :: as, (l, w) :: bs => k == l && pyBeq v w && pyBeqDict as bs
  | _, _ => false
end

mutual
theorem pyBeq_iff : ∀ (a b : PyVal), pyBeq a b = true ↔ a = b
  | PyVal.int a, PyVal.int b => by simp [pyBeq]
  | PyVal.int a, PyVal.str b => by simp [pyBeq]
  | PyVal.int a, PyVal.list b => by simp [pyBeq]
  | PyVal.int a, PyVal.dict b => by simp [pyBeq]
  | PyVal.str a, PyVal.int b => by simp [pyBeq]
  | PyVal.str a, PyVal.str b => by simp [pyBeq]
  | PyVal.str a, PyVal.list b => by simp [pyBeq]
  | PyVal.str a, PyVal.dict b => by simp [pyBeq]
  | PyVal.list a, PyVal.int b => by simp [pyBeq]
  | PyVal.list a, PyVal.str b => by simp [pyBeq]
  | PyVal.list as, PyVal.list bs => by
      simp only [pyBeq, PyVal.list.injEq]
      exact pyBeqList_iff as bs
  | PyVal.list a, PyVal.dict b => by simp [pyBeq]
  | PyVal.dict a, PyVal.int b => by simp [pyBeq]
  | PyVal.dict a, PyVal.str b => by simp [pyBeq]
  | PyVal.dict a, PyVal.list b => by simp [pyBeq]
  | PyVal.dict as, PyVal.dict bs => by
      simp only [pyBeq, PyVal.dict.injEq]
      exact pyBeqDict_iff as bs
theorem pyBeqList_iff : ∀ (as bs : List PyVal), pyBeqList as bs = true ↔ as = bs
  | [], [] => by simp [pyBeqList]
  | [], b :: bs => by simp [pyBeqList]
  | a :: as, [] => by simp [pyBeqList]
  | a :: as, b :: bs => by
      simp only [pyBeqList, Bool.and_eq_true, List.cons.injEq]
      rw [pyBeq_iff a b, pyBeqList_iff as bs]
theorem pyBeqDict_iff : ∀ (as bs : List (String × PyVal)), pyBeqDict as bs = true ↔ as = bs
  | [], [] => by simp [pyBeqDict]
  | [], b :: bs => by simp [pyBeqDict]
  | a :: as, [] => by simp [pyBeqDict]
  | (k, v) :: as, (l, w) :: bs => by
      simp only [pyBeqDict, Bool.and_eq_true, List.cons.injEq, Prod.mk.injEq, beq_iff_eq]
      rw [pyBeq_iff v w, pyBeqDict_iff as bs]
end

instance : DecidableEq PyVal := fun a b =>
  decidable_of_iff (pyBeq a b = true) (pyBeq_iff a b)

/-- The accumulator dict `aggregated` built by `_aggregate_reviews`, with its
four keys as fields. -/
structure Aggregated where
  high_priority : List PyVal
  medium_priority : List PyVal
  low_priority : List PyVal
  suggestions : List String
deriving DecidableEq

/-- Initial accumulator: all four entries empty. -/
def emptyAgg : Aggregated := ⟨[], [], [], []⟩

/-- Python `dict.get(k)` without default: first binding of the key, if any. -/
def pyFind : List (String × PyVal) → String → Option PyVal
  | [], _ => Option.none
  | kv :: rest, k => if kv.1 = k then some kv.2 else pyFind rest k

/-- Python `d.get(k, dflt)`. -/
def pyGet (kvs : List (String × PyVal)) (k : String) (dflt : PyVal) : PyVal :=
  (pyFind kvs k).getD dflt

/-- Python truthiness (`if s:`) for the values modelled here. -/
def pyTruthy : PyVal → Bool
  | PyVal.int n => n != 0
  | PyVal.str s => s != ""
  | PyVal.list xs => !xs.isEmpty
  | PyVal.dict kvs => !kvs.isEmpty

/-- A single-quote character, used by `pyRepr` the way Python quotes strings. -/
def squote : String := String.mk [Char.ofNat 39]

mutual
/-- Python `repr`, as used by `str()` on containers. -/
def pyRepr : PyVal → String
  | PyVal.int n => toString n
  | PyVal.str s => squote ++ s ++ squote
  | PyVal.list xs => "[" ++ pyReprList xs ++ "]"
  | PyVal.dict kvs => "\x7b" ++ pyReprDict kvs ++ "\x7d"
def pyReprList : List PyVal → String
  | [] => ""
  | [x] => pyRepr x
  | x :: y :: t => pyRepr x ++ ", " ++ pyReprList (y :: t)
def pyReprDict : List (String × PyVal) → String
  | [] => ""
  | [(k, v)] => squote ++ k ++ squote ++ ": " ++ pyRepr v
  | (k, v) :: y :: t => squote ++ k ++ squote ++ ": " ++ pyRepr v ++ ", " ++ pyReprDict (y :: t)
end

/-- Python `str(v)`: identity on strings, `repr`-based on containers. -/
def pyStr : PyVal → String
  | PyVal.str s => s
  | v => pyRepr v

/-- Python iteration `for x in v`: lists yield their elements, strings their
characters (as one-character strings), dicts their keys; numbers are not
iterable (`TypeError`). -/
def pyIter : PyVal → Option (List PyVal)
  | PyVal.list xs => some xs
  | PyVal.str s => some (s.data.map fun c => PyVal.str (String.mk [c]))
  | PyVal.dict kvs => some (kvs.map fun kv => PyVal.str kv.1)
  | PyVal.int _ => Option.none

/-- Python `s.lower()` on the ASCII texts this code handles. -/
def lowerChars (l : List Char) : List Char := l.map Char.toLower

/-- Python `s.lower()` at `String` type. -/
def pyLower (s : String) : String := String.mk (lowerChars s.data)

/-- Does `needle` occur at the head of `hay`? -/
def leadsWith : List Char → List Char → Bool
  | [], _ => true
  | _ :: _, [] => false
  | a :: as, b :: bs => a == b && leadsWith as bs

/-- Python `hay.find(needle)`: index of the first occurrence, `none` when the
Python call would return `-1`. -/
def findSub (needle : List Char) : List Char → Option Nat
  | [] => if leadsWith needle [] then some 0 else Option.none
  | c :: t => if leadsWith needle (c :: t) then some 0 else (findSub needle t).map (· + 1)

/-- Python `text.split(chr(10))`. -/
def splitOnNl : List Char → List (List Char)
  | [] => [[]]
  | c :: t =>
    if c = '\n' then [] :: splitOnNl t
    else
      match splitOnNl t with
      | [] => [[c]]
      | l :: ls => (c :: l) :: ls

/-- Characters removed by Python `str.strip()`. -/
def isPySpace (c : Char) : Bool :=
  c == ' ' || c == '\t' || c == '\n' || c == '\r' || c == '\x0b' || c == '\x0c'

/-- Python `line.strip()`. -/
def stripChars (l : List Char) : List Char :=
  ((l.dropWhile isPySpace).reverse.dropWhile isPySpace).reverse

/-- The list comprehensions of the fallback branch: keep each line whose
`strip()` is truthy, stripped. -/
def nonblankStripped (lines : List (List Char)) : List String :=
  lines.filterMap fun l =>
    let t := stripChars l
    if t.isEmpty then Option.none else some (String.mk t)

/-- Lines the fallback turns into issues: the slice
`result[issues_start:suggestions_start]`, split on newlines, blank lines
dropped, remaining lines stripped. -/
def heurIssueLines (s : List Char) (i j : Nat) : List String :=
  nonblankStripped (splitOnNl ((s.drop i).take (j - i)))

/-- Lines the fallback turns into suggestions: the slice
`result[suggestions_start:]` (empty when the marker was not found), split on
newlines, blank lines dropped, remaining lines stripped. -/
def heurSuggLines (s : List Char) (j : Nat) : List String :=
  nonblankStripped (splitOnNl (if j < s.length then s.drop j else []))

/-- The issue dict built by the fallback branch:
`(description := line, severity := "medium")`. -/
def mkFallbackIssue (t : String) : PyVal :=
  PyVal.dict [("description", PyVal.str t), ("severity", PyVal.str "medium")]

/-- Normalization of a string result (`_aggregate_reviews` lines 156-176):
try `json.loads` (abstracted as the parameter `p`); on failure, if the text
contains a case-insensitive "issues" marker, rebuild a dict from the slices
around the "issues"/"suggestions" markers, else leave the string as is. -/
def normalizeStr (p : String → Option PyVal) (s : String) : PyVal :=
  match p s with
  | some v => v
  | Option.none =>
    match findSub "issues".data (lowerChars s.data) with
    | Option.none => PyVal.str s
    | some issues_start =>
      let suggestions_start :=
        match findSub "suggestions".data (lowerChars s.data) with
        | some k => k
        | Option.none => s.data.length
      PyVal.dict
        [("issues", PyVal.list
            ((heurIssueLines s.data issues_start suggestions_start).map mkFallbackIssue)),
         ("suggestions", PyVal.list
            ((heurSuggLines s.data suggestions_start).map PyVal.str))]

/-- Issue classification loop (`_aggregate_reviews` lines 183-191).  Each
dict-shaped issue is routed on `issue.get("severity", "low").lower()`; a
non-string severity makes `.lower()` raise, which aborts the rest of the
result (second component `true`) while keeping the appends already made.
Non-dict entries are skipped. -/
def classifyIssues : Aggregated → List PyVal → Aggregated × Bool
  | agg, [] => (agg, false)
  | agg, issue :: rest =>
    match issue with
    | PyVal.dict kvs =>
      (match pyGet kvs "severity" (PyVal.str "low") with
       | PyVal.str sev =>
         classifyIssues
           (if pyLower sev = "high" then
              { agg with high_priority := agg.high_priority ++ [PyVal.dict kvs] }
            else if pyLower sev = "medium" then
              { agg with medium_priority := agg.medium_priority ++ [PyVal.dict kvs] }
            else
              { agg with low_priority := agg.low_priority ++ [PyVal.dict kvs] }) rest
       | _ => (agg, true))
    | _ => classifyIssues agg rest

/-- Body of the per-result processing once `review_data` is a dict: classify
the issues, then (if no exception occurred) extend `suggestions` with
`[str(s) for s in suggestions if s]` provided the `suggestions` value is a
list. -/
def processInner (agg : Aggregated) (rkvs : List (String × PyVal)) : Aggregated :=
  match pyIter (pyGet rkvs "issues" (PyVal.list [])) with
  | Option.none => agg
  | some issues =>
    match classifyIssues agg issues with
    | (agg', true) => agg'
    | (agg', false) =>
      match pyGet rkvs "suggestions" (PyVal.list []) with
      | PyVal.list ss =>
        { agg' with suggestions := agg'.suggestions ++ (ss.filter pyTruthy).map pyStr }
      | _ => agg'

/-- Processing of a dict result: `review_data = result.get("review", result)`;
if that value is not a dict, the subsequent `review_data.get` raises
`AttributeError` and the result is skipped with nothing appended. -/
def processDict (agg : Aggregated) (kvs : List (String × PyVal)) : Aggregated :=
  match pyGet kvs "review" (PyVal.dict kvs) with
  | PyVal.dict rkvs => processInner agg rkvs
  | _ => agg

/-- One iteration of the `for result in review_results` loop: strings are
normalized first; anything that is not a dict afterwards contributes
nothing; exceptions inside are swallowed by the surrounding `try`. -/
def processResult (p : String → Option PyVal) (agg : Aggregated) (result : PyVal) : Aggregated :=
  match (match result with | PyVal.str s => normalizeStr p s | r => r) with
  | PyVal.dict kvs => processDict agg kvs
  | _ => agg

/-- Lexicographic order on character lists by code point, the order Python
uses to compare strings. -/
def charListLe : List Char → List Char → Bool
  | [], _ => true
  | _ :: _, [] => false
  | a :: as, b :: bs =>
    if a.toNat < b.toNat then true
    else if b.toNat < a.toNat then false
    else charListLe as bs

/-- Python `a <= b` on strings. -/
def strLe (a b : String) : Bool := charListLe a.data b.data

/-- Stable insertion by key, modelling one step of Python `sorted` on
`x.items()` (keys are unique in a Python dict, so only keys are compared). -/
def insertByKey (q : String × PyVal) : List (String × PyVal) → List (String × PyVal)
  | [] => [q]
  | r :: t => if strLe q.1 r.1 then q :: r :: t else r :: insertByKey q t

/-- Python `sorted(x.items())` (stable, by key). -/
def sortedItems : List (String × PyVal) → List (String × PyVal)
  | [] => []
  | q :: t => insertByKey q (sortedItems t)

/-- Is a value hashable in Python?  Of the values modelled here, lists and
dicts are not. -/
def hashableVal : PyVal → Bool
  | PyVal.list _ => false
  | PyVal.dict _ => false
  | _ => true

/-- An issue the final dedup pass accepts without raising: a dict all of
whose values are hashable. -/
def goodIssue : PyVal → Bool
  | PyVal.dict kvs => kvs.all fun kv => hashableVal kv.2
  | _ => false

/-- Do all three buckets consist of dedup-safe issues? -/
def bucketsOk (agg : Aggregated) : Bool :=
  agg.high_priority.all goodIssue && agg.medium_priority.all goodIssue &&
    agg.low_priority.all goodIssue

/-- The dedup key `tuple(sorted(x.items()))` of a dict-shaped issue. -/
def issueKey (kvs : List (String × PyVal)) : List (String × PyVal) :=
  sortedItems kvs

/-- The dedup key of a bucket element (buckets only ever hold dicts; a
non-dict has no `items()` and makes the pass raise). -/
def keyOf : PyVal → List (String × PyVal)
  | PyVal.dict kvs => issueKey kvs
  | _ => []

/-- Final dedup of one issue bucket (`_aggregate_reviews` lines 207-211).
The key `tuple(sorted(x.items()))` is hashed for the membership test in
`seen`, so a non-hashable field value raises `TypeError` (and a non-dict
element would fail on `.items()`); that exception is outside every
`try`/`except` and escapes. -/
def dedupBucket : List PyVal → List (List (String × PyVal)) → Except Unit (List PyVal)
  | [], _ => Except.ok []
  | x :: rest, seen =>
    match x with
    | PyVal.dict kvs =>
      if (issueKey kvs).all (fun kv => hashableVal kv.2) then
        if issueKey kvs ∈ seen then dedupBucket rest seen
        else
          match dedupBucket rest (issueKey kvs :: seen) with
          | Except.ok r => Except.ok (PyVal.dict kvs :: r)
          | Except.error e => Except.error e
      else Except.error ()
    | _ => Except.error ()

/-- Python `list(dict.fromkeys(l))` with an explicit seen-set: keep the first
occurrence of each element, in order. -/
def dedupFirstAux (seen : List String) : List String → List String
  | [] => []
  | x :: xs => if x ∈ seen then dedupFirstAux seen xs else x :: dedupFirstAux (x :: seen) xs

/-- Python `list(dict.fromkeys(l))` (dedup of `suggestions`). -/
def dedupFirst (l : List String) : List String := dedupFirstAux [] l

/-- The final dedup pass over the accumulator (`for key in aggregated`, in
insertion order high, medium, low, suggestions). -/
def finalDedup (agg : Aggregated) : Except Unit Aggregated :=
  match dedupBucket agg.high_priority [] with
  | Except.error e => Except.error e
  | Except.ok h =>
    match dedupBucket agg.medium_priority [] with
    | Except.error e => Except.error e
    | Except.ok m =>
      match dedupBucket agg.low_priority [] with
      | Except.error e => Except.error e
      | Except.ok l => Except.ok ⟨h, m, l, dedupFirst agg.suggestions⟩

/-- The whole of `_aggregate_reviews`: fold the per-result processing over
the input sequence, then run the final dedup pass.  `p` abstracts
`json.loads` (strict structured parsing of a text result). -/
def aggregate_reviews (p : String → Option PyVal) (review_results : List PyVal) :
    Except Unit Aggregated :=
  finalDedup (review_results.foldl (processResult p) emptyAgg)

/-- The value `_get_agent_review` returns when the agent call raises: note it
wraps the empty issues/suggestions dict under a "review" key. -/
def sentinel_result : PyVal :=
  PyVal.dict [("review", PyVal.dict [("issues", PyVal.list []), ("suggestions", PyVal.list [])])]

/-- Model of `_get_agent_review`: the agent call's outcome is the argument;
an exception is converted to the sentinel, a value is passed through. -/
def get_agent_review (call : Except Unit PyVal) : PyVal :=
  match call with
  | Except.ok r => r
  | Except.error _ => sentinel_result

/-- Model of the dispatch in `review_code`: `asyncio.gather` preserves task
order, so the batch is the roster-ordered map of `_get_agent_review` over
the per-agent call outcomes. -/
def review_dispatch (calls : List (Except Unit PyVal)) : List PyVal :=
  calls.map get_agent_review

/-- Convenience: is an `Except` a success? -/
def exceptOk {A : Type} : Except Unit A → Bool
  | Except.ok _ => true
  | Except.error _ => false

instance : DecidableEq (Except Unit Aggregated) := fun a b =>
  match a, b with
  | Except.ok x, Except.ok y =>
    match decEq x y with
    | isTrue h => isTrue (by rw [h])
    | isFalse h => isFalse (by intro hh; cases hh; exact h rfl)
  | Except.error x, Except.error y =>
    match decEq x y with
    | isTrue h => isTrue (by rw [h])
    | isFalse h => isFalse (by intro hh; cases hh; exact h rfl)
  | Except.ok _, Except.error _ => isFalse (by intro hh; cases hh)
  | Except.error _, Except.ok _ => isFalse (by intro hh; cases hh)

/-- Python `isinstance(v, list)`. -/
def isPyList : PyVal → Bool
  | PyVal.list _ => true
  | _ => false

/-- A parser that always fails, standing in for `json.loads` on any text
that is not valid JSON. -/
def noParse : String → Option PyVal := fun _ => Option.none

/-- Index of the first occurrence of a string in a list (length of the list
when absent). -/
def firstIdx (a : String) : List String → Nat
  | [] => 0
  | x :: xs => if x = a then 0 else firstIdx a xs + 1

/-! ## Helper lemmas -/

theorem classifyIssues_suggestions : ∀ (agg : Aggregated) (issues : List PyVal),
    ((classifyIssues agg issues).1).suggestions = agg.suggestions
  | _, [] => rfl
  | agg, issue :: rest => by
    cases issue with
    | dict kvs =>
      simp only [classifyIssues]
      cases pyGet kvs "severity" (PyVal.str "low") with
      | str sev =>
        rw [classifyIssues_suggestions _ rest]
        split
        · rfl
        · split <;> rfl
      | int n => rfl
      | list xs => rfl
      | dict d => rfl
    | int n => exact classifyIssues_suggestions agg rest
    | str s => exact classifyIssues_suggestions agg rest
    | list xs => exact classifyIssues_suggestions agg rest

theorem classifyIssues_extends : ∀ (agg : Aggregated) (issues : List PyVal),
    ∃ dh dm dl, (classifyIssues agg issues).1 =
      { high_priority := agg.high_priority ++ dh,
        medium_priority := agg.medium_priority ++ dm,
        low_priority := agg.low_priority ++ dl,
        suggestions := agg.suggestions }
  | agg, [] => ⟨[], [], [], by simp [classifyIssues]⟩
  | agg, issue :: rest => by
    rcases issue with n | s | xs | kvs
    · simpa only [classifyIssues] using classifyIssues_extends agg rest
    · simpa only [classifyIssues] using classifyIssues_extends agg rest
    · simpa only [classifyIssues] using classifyIssues_extends agg rest
    · rcases hsev : pyGet kvs "severity" (PyVal.str "low") with n | sev | xs | d
      · exact ⟨[], [], [], by simp [classifyIssues, hsev]⟩
      · simp only [classifyIssues, hsev]
        by_cases h1 : pyLower sev = "high"
        · rw [if_pos h1]
          obtain ⟨dh, dm, dl, h⟩ := classifyIssues_extends
            { agg with high_priority := agg.high_priority ++ [PyVal.dict kvs] } rest
          refine ⟨PyVal.dict kvs :: dh, dm, dl, ?_⟩
          rw [h]
          simp
        · rw [if_neg h1]
          by_cases h2 : pyLower sev = "medium"
          · rw [if_pos h2]
            obtain ⟨dh, dm, dl, h⟩ := classifyIssues_extends
              { agg with medium_priority := agg.medium_priority ++ [PyVal.dict kvs] } rest
            refine ⟨dh, PyVal.dict kvs :: dm, dl, ?_⟩
            rw [h]
            simp
          · rw [if_neg h2]
            obtain ⟨dh, dm, dl, h⟩ := classifyIssues_extends
              { agg with low_priority := agg.low_priority ++ [PyVal.dict kvs] } rest
            refine ⟨dh, dm, PyVal.dict kvs :: dl, ?_⟩
            rw [h]
            simp
      · exact ⟨[], [], [], by simp [classifyIssues, hsev]⟩
      · exact ⟨[], [], [], by simp [classifyIssues, hsev]⟩

/-! ## Claim C3: unwrapping of the `review` field -/

/-- Claim C3, counterexample: a result whose `review` field is present but
is a string, with well-formed top-level `issues` and `suggestions`.  The
claim says the top-level mapping is used, so `high_priority` should contain
the issue and `suggestions` the suggestion; instead the `review_data.get`
call raises on the string, the result is skipped, and the report is empty. -/
theorem review_field_nonmapping_skips_result :
    aggregate_reviews noParse
      [PyVal.dict [("review", PyVal.str "great"),
         ("issues", PyVal.list [PyVal.dict [("severity", PyVal.str "high"), ("description", PyVal.str "D")]]),
         ("suggestions", PyVal.list [PyVal.str "S"])]] = Except.ok emptyAgg := by
  decide

/-- Claim C3 (amended): a mapping result is processed from its nested
`review` mapping when the `review` field holds a mapping, and from the
top-level mapping when the field is absent; when the field is present but
not a mapping, attribute lookup on it raises and the result contributes
nothing at all (it does not fall back to the top-level mapping). -/
theorem review_unwrap_dispatch (p : String → Option PyVal) (agg : Aggregated)
    (kvs : List (String × PyVal)) :
    processResult p agg (PyVal.dict kvs) =
      match pyFind kvs "review" with
      | some (PyVal.dict rkvs) => processInner agg rkvs
      | some _ => agg
      | Option.none => processInner agg kvs := by
  show processDict agg kvs = _
  unfold processDict pyGet
  rcases hf : pyFind kvs "review" with _ | v
  · simp
  · rcases v with n | s | xs | rkvs <;> simp

/-! ## Claim C4: effect of a mid-result exception on the accumulator -/

/-- Claim C4, counterexample: one result with a high-severity issue followed
by an issue whose severity is the number 42.  The claim says a failing
result contributes nothing, so the report should be empty; instead the
first issue, classified before `.lower()` raised, stays in `high_priority`
(the suggestions of the failing result are lost). -/
theorem failing_result_partial_contribution :
    aggregate_reviews noParse
      [PyVal.dict [("issues", PyVal.list
          [PyVal.dict [("severity", PyVal.str "high"), ("description", PyVal.str "x")],
           PyVal.dict [("severity", PyVal.int 42)]]),
        ("suggestions", PyVal.list [PyVal.str "S"])]]
    = Except.ok ⟨[PyVal.dict [("severity", PyVal.str "high"), ("description", PyVal.str "x")]],
                 [], [], []⟩ := by
  decide

/-- Claim C4 (amended): processing one more result only ever appends to the
four accumulator entries, so the contributions of all prior results are
unchanged whatever happens — but a result that raises mid-way keeps the
issues it classified before the exception (it is not skipped entirely). -/
theorem processing_extends_accumulator (p : String → Option PyVal) (agg : Aggregated)
    (r : PyVal) :
    ∃ dh dm dl ds, processResult p agg r =
      { high_priority := agg.high_priority ++ dh,
        medium_priority := agg.medium_priority ++ dm,
        low_priority := agg.low_priority ++ dl,
        suggestions := agg.suggestions ++ ds } := by
  have inner : ∀ (rkvs : List (String × PyVal)), ∃ dh dm dl ds, processInner agg rkvs =
      { high_priority := agg.high_priority ++ dh,
        medium_priority := agg.medium_priority ++ dm,
        low_priority := agg.low_priority ++ dl,
        suggestions := agg.suggestions ++ ds } := by
    intro rkvs
    unfold processInner
    rcases hit : pyIter (pyGet rkvs "issues" (PyVal.list [])) with _ | issues
    · exact ⟨[], [], [], [], by simp [hit]⟩
    · obtain ⟨dh, dm, dl, hcls⟩ := classifyIssues_extends agg issues
      rcases hc : classifyIssues agg issues with ⟨agg2, flag⟩
      rw [hc] at hcls
      have hcls' : agg2 =
          { high_priority := agg.high_priority ++ dh,
            medium_priority := agg.medium_priority ++ dm,
            low_priority := agg.low_priority ++ dl,
            suggestions := agg.suggestions } := hcls
      cases flag
      · rcases hg : pyGet rkvs "suggestions" (PyVal.list []) with n | s | ss | d
        · exact ⟨dh, dm, dl, [], by simp only [hit, hc, hg]; simpa using hcls'⟩
        · exact ⟨dh, dm, dl, [], by simp only [hit, hc, hg]; simpa using hcls'⟩
        · refine ⟨dh, dm, dl, (ss.filter pyTruthy).map pyStr, ?_⟩
          simp only [hit, hc, hg]
          rw [hcls']
        · exact ⟨dh, dm, dl, [], by simp only [hit, hc, hg]; simpa using hcls'⟩
      · exact ⟨dh, dm, dl, [], by simp only [hit, hc]; simpa using hcls'⟩
  unfold processResult
  rcases hn : (match r with | PyVal.str s => normalizeStr p s | r => r) with n | s | xs | kvs
  · exact ⟨[], [], [], [], by simp [hn]⟩
  · exact ⟨[], [], [], [], by simp [hn]⟩
  · exact ⟨[], [], [], [], by simp [hn]⟩
  · simp only [hn]
    unfold processDict
    rcases hg : pyGet kvs "review" (PyVal.dict kvs) with n | s | xs | rkvs
    · exact ⟨[], [], [], [], by simp [hg]⟩
    · exact ⟨[], [], [], [], by simp [hg]⟩
    · exact ⟨[], [], [], [], by simp [hg]⟩
    · simpa only [hg] using inner rkvs

/-! ## Claim C5: dispatch result count and failure sentinel -/

/-- Claim C5, counterexample: the result substituted for a failing reviewer
call is not the bare `(issues := [], suggestions := [])` dict the claim
names — `_get_agent_review` wraps it under a `review` key. -/
theorem sentinel_is_wrapped :
    review_dispatch [Except.error ()]
      ≠ [PyVal.dict [("issues", PyVal.list []), ("suggestions", PyVal.list [])]] := by
  decide

/-- Claim C5 (amended): dispatch returns exactly one result per roster entry,
in roster order, and each failing entry's result equals the sentinel
`(review := (issues := [], suggestions := []))`; a single reviewer failure
never aborts the batch. -/
theorem dispatch_length_and_failures (calls : List (Except Unit PyVal)) :
    (review_dispatch calls).length = calls.length ∧
    ∀ i : Nat, calls[i]? = some (Except.error ()) →
      (review_dispatch calls)[i]? = some sentinel_result := by
  refine ⟨by simp [review_dispatch], fun i hi => ?_⟩
  simp [review_dispatch, hi, get_agent_review]

/-- Claim C5, witness: a roster of five calls whose third raises yields five
results, the third being the wrapped sentinel. -/
theorem dispatch_length_and_failures_witness :
    (review_dispatch [Except.ok (PyVal.str "r1"), Except.ok (PyVal.str "r2"), Except.error (),
       Except.ok (PyVal.str "r4"), Except.ok (PyVal.str "r5")]).length = 5 ∧
    (review_dispatch [Except.ok (PyVal.str "r1"), Except.ok (PyVal.str "r2"), Except.error (),
       Except.ok (PyVal.str "r4"), Except.ok (PyVal.str "r5")])[2]? = some sentinel_result :=
  ⟨(dispatch_length_and_failures _).1.trans rfl,
   (dispatch_length_and_failures _).2 2 rfl⟩

/-! ## Claim C6: severity routing of dict-shaped issues -/

/-- Claim C6, counterexample: a dict-shaped issue whose `severity` field is
the number 42.  The claim says every severity other than high/medium lands
the issue in `low_priority` and no dict-shaped issue is ever dropped;
instead `.lower()` raises and the issue is dropped, leaving the report
empty. -/
theorem nonstring_severity_drops_issue :
    aggregate_reviews noParse
      [PyVal.dict [("issues",
          PyVal.list [PyVal.dict [("severity", PyVal.int 42), ("description", PyVal.str "d")]])]]
      = Except.ok emptyAgg := by
  decide

/-- Claim C6 (amended): for a dict-shaped issue whose `severity` field is a
string (or absent, in which case the default is the string "low"), the
bucket is chosen solely from the lower-cased severity: "high" to
`high_priority`, "medium" to `medium_priority`, anything else to
`low_priority`, and the issue is never dropped.  (A non-string severity,
by contrast, raises and drops the issue, per the counterexample.) -/
theorem severity_routing (agg : Aggregated) (kvs : List (String × PyVal)) (sev : String)
    (h : pyGet kvs "severity" (PyVal.str "low") = PyVal.str sev) :
    classifyIssues agg [PyVal.dict kvs] =
      (if pyLower sev = "high" then
         { agg with high_priority := agg.high_priority ++ [PyVal.dict kvs] }
       else if pyLower sev = "medium" then
         { agg with medium_priority := agg.medium_priority ++ [PyVal.dict kvs] }
       else
         { agg with low_priority := agg.low_priority ++ [PyVal.dict kvs] }, false) := by
  simp only [classifyIssues, h]

/-- Claim C6, witness: an issue with severity "HIGH" (upper case) is routed
to `high_priority` and not dropped. -/
theorem severity_routing_witness :
    pyGet [("severity", PyVal.str "HIGH")] "severity" (PyVal.str "low") = PyVal.str "HIGH" ∧
    classifyIssues emptyAgg [PyVal.dict [("severity", PyVal.str "HIGH")]]
      = (⟨[PyVal.dict [("severity", PyVal.str "HIGH")]], [], [], []⟩, false) := by
  refine ⟨rfl, ?_⟩
  have h := severity_routing emptyAgg [("severity", PyVal.str "HIGH")] "HIGH" rfl
  rw [h]
  decide

/-! ## Claim C9: text blobs without an "issues" marker -/

/-- Claim C9: a text result that fails strict parsing and contains no
case-insensitive "issues" substring contributes nothing — the heuristic is
gated on the "issues" marker alone, even if a "suggestions" marker is
present. -/
theorem no_issues_marker_contributes_nothing (p : String → Option PyVal) (agg : Aggregated)
    (s : String) (hp : p s = Option.none)
    (hm : findSub "issues".data (lowerChars s.data) = Option.none) :
    processResult p agg (PyVal.str s) = agg := by
  unfold processResult normalizeStr
  simp [hp, hm]

/-- Claim C9, witness: a text with a "Suggestions" marker but no "issues"
substring leaves the accumulator untouched. -/
theorem no_issues_marker_witness :
    noParse "Summary\nSuggestions:\nC" = Option.none ∧
    findSub "issues".data (lowerChars "Summary\nSuggestions:\nC".data) = Option.none ∧
    processResult noParse emptyAgg (PyVal.str "Summary\nSuggestions:\nC") = emptyAgg :=
  ⟨rfl, by decide,
   no_issues_marker_contributes_nothing noParse emptyAgg "Summary\nSuggestions:\nC" rfl (by decide)⟩

/-! ## Claim C10: non-list `suggestions` values are ignored wholesale -/

/-- Claim C10: when the unwrapped `suggestions` value is not a list (for
example a single string), the `isinstance(suggestions, list)` guard fails
and no suggestions are added from that result; in particular a string is
never split into characters, and processing continues without error. -/
theorem nonlist_suggestions_ignored (agg : Aggregated) (rkvs : List (String × PyVal))
    (h : isPyList (pyGet rkvs "suggestions" (PyVal.list [])) = false) :
    (processInner agg rkvs).suggestions = agg.suggestions := by
  unfold processInner
  rcases hit : pyIter (pyGet rkvs "issues" (PyVal.list [])) with _ | issues
  · simp [hit]
  · have hsug := classifyIssues_suggestions agg issues
    rcases hc : classifyIssues agg issues with ⟨agg2, flag⟩
    rw [hc] at hsug
    cases flag
    · rcases hg : pyGet rkvs "suggestions" (PyVal.list []) with n | s | ss | d
      · simp only [hit, hc]; exact hsug
      · simp only [hit, hc]; exact hsug
      · rw [hg] at h; simp [isPyList] at h
      · simp only [hit, hc]; exact hsug
    · simp only [hit, hc]; exact hsug

/-- Claim C10, witness: a result whose `suggestions` value is the string
"abc" adds no suggestions (the string is not split into characters). -/
theorem nonlist_suggestions_ignored_witness :
    isPyList (pyGet [("issues", PyVal.list []), ("suggestions", PyVal.str "abc")]
        "suggestions" (PyVal.list [])) = false ∧
    (processInner emptyAgg [("issues", PyVal.list []), ("suggestions", PyVal.str "abc")]).suggestions
      = [] :=
  ⟨by decide,
   nonlist_suggestions_ignored emptyAgg [("issues", PyVal.list []), ("suggestions", PyVal.str "abc")]
     (by decide)⟩

/-! ## Lemmas about sorting and the bucket dedup -/

theorem insertByKey_all (f : String × PyVal → Bool) (q : String × PyVal) :
    ∀ (l : List (String × PyVal)), (insertByKey q l).all f = (f q && l.all f)
  | [] => by simp [insertByKey]
  | r :: t => by
    unfold insertByKey
    split
    · simp
    · rw [List.all_cons, insertByKey_all f q t]
      simp [Bool.and_assoc, Bool.and_comm, Bool.and_left_comm]

theorem sortedItems_all (f : String × PyVal → Bool) :
    ∀ (kvs : List (String × PyVal)), (sortedItems kvs).all f = kvs.all f
  | [] => rfl
  | q :: t => by
    unfold sortedItems
    rw [insertByKey_all, sortedItems_all f t]
    simp

theorem dedupBucket_ok_iff : ∀ (l : List PyVal) (seen : List (List (String × PyVal))),
    exceptOk (dedupBucket l seen) = l.all goodIssue
  | [], _ => rfl
  | x :: rest, seen => by
    rcases x with n | s | xs | kvs
    · simp [dedupBucket, goodIssue, exceptOk]
    · simp [dedupBucket, goodIssue, exceptOk]
    · simp [dedupBucket, goodIssue, exceptOk]
    · have hall : ((issueKey kvs).all fun kv => hashableVal kv.2) = goodIssue (PyVal.dict kvs) := by
        unfold issueKey goodIssue
        exact sortedItems_all _ kvs
      simp only [dedupBucket]
      by_cases hh : ((issueKey kvs).all fun kv => hashableVal kv.2) = true
      · rw [if_pos hh]
        by_cases hm : issueKey kvs ∈ seen
        · rw [if_pos hm, dedupBucket_ok_iff rest seen, List.all_cons, ← hall, hh]
          simp
        · rw [if_neg hm]
          have ih := dedupBucket_ok_iff rest (issueKey kvs :: seen)
          rcases hd : dedupBucket rest (issueKey kvs :: seen) with u | r
          · rw [hd] at ih
            rw [List.all_cons, ← hall, hh]
            simpa [exceptOk] using ih
          · rw [hd] at ih
            rw [List.all_cons, ← hall, hh]
            simpa [exceptOk] using ih
      · rw [if_neg hh]
        have : goodIssue (PyVal.dict kvs) = false := by
          rw [← hall]
          exact Bool.not_eq_true _ ▸ (by simpa using hh)
        simp [exceptOk, List.all_cons, this]

/-- Claim C1, counterexample: a structured result carrying a high-severity
issue with a list-valued `refs` field.  The claim says `aggregate` never
raises; instead `tuple(sorted(x.items()))` contains the list, hashing it
for the `seen`-set membership test raises `TypeError` outside every
`try`/`except`, and the call fails. -/
theorem aggregate_unhashable_raises :
    aggregate_reviews noParse
      [PyVal.dict [("issues", PyVal.list [PyVal.dict
          [("description", PyVal.str "d"), ("severity", PyVal.str "high"),
           ("refs", PyVal.list [PyVal.str "a"])]]),
        ("suggestions", PyVal.list [])]] = Except.error () := by
  decide

/-- Claim C1 (amended): `aggregate` returns a report exactly when every
issue that reaches a priority bucket is a dict all of whose field values
are hashable; per-result problems inside the processing loop are still
swallowed, but a non-hashable field value (such as a list) in a bucketed
issue makes the final dedup raise, and that exception propagates to the
caller. -/
theorem aggregate_ok_iff_buckets_hashable (p : String → Option PyVal) (rs : List PyVal) :
    exceptOk (aggregate_reviews p rs) = bucketsOk (rs.foldl (processResult p) emptyAgg) := by
  unfold aggregate_reviews finalDedup bucketsOk
  have h1 := dedupBucket_ok_iff (rs.foldl (processResult p) emptyAgg).high_priority []
  have h2 := dedupBucket_ok_iff (rs.foldl (processResult p) emptyAgg).medium_priority []
  have h3 := dedupBucket_ok_iff (rs.foldl (processResult p) emptyAgg).low_priority []
  rcases e1 : dedupBucket (rs.foldl (processResult p) emptyAgg).high_priority [] with u1 | b1 <;>
    rcases e2 : dedupBucket (rs.foldl (processResult p) emptyAgg).medium_priority [] with u2 | b2 <;>
    rcases e3 : dedupBucket (rs.foldl (processResult p) emptyAgg).low_priority [] with u3 | b3 <;>
    rw [e1] at h1 <;> rw [e2] at h2 <;> rw [e3] at h3 <;>
    simp only [exceptOk] at h1 h2 h3 ⊢ <;>
    rw [← h1, ← h2, ← h3] <;> simp

/-! ## Lemmas about the suggestion dedup -/

theorem dedupFirstAux_mem : ∀ (l seen : List String) (a : String),
    a ∈ dedupFirstAux seen l ↔ a ∈ l ∧ a ∉ seen
  | [], seen, a => by simp [dedupFirstAux]
  | x :: xs, seen, a => by
    unfold dedupFirstAux
    by_cases hx : x ∈ seen
    · rw [if_pos hx, dedupFirstAux_mem xs seen a]
      constructor
      · rintro ⟨h1, h2⟩
        exact ⟨List.mem_cons_of_mem _ h1, h2⟩
      · rintro ⟨h1, h2⟩
        rcases List.mem_cons.mp h1 with rfl | h1
        · exact absurd hx h2
        · exact ⟨h1, h2⟩
    · rw [if_neg hx, List.mem_cons, dedupFirstAux_mem xs (x :: seen) a]
      constructor
      · rintro (rfl | ⟨h1, h2⟩)
        · exact ⟨List.mem_cons_self _ _, hx⟩
        · exact ⟨List.mem_cons_of_mem _ h1, fun hs => h2 (List.mem_cons_of_mem _ hs)⟩
      · rintro ⟨h1, h2⟩
        by_cases hax : a = x
        · exact Or.inl hax
        · right
          rcases List.mem_cons.mp h1 with rfl | h1
          · exact absurd rfl hax
          · refine ⟨h1, fun hs => ?_⟩
            rcases List.mem_cons.mp hs with rfl | hs
            · exact hax rfl
            · exact h2 hs

theorem dedupFirstAux_pairwise : ∀ (l seen : List String),
    (dedupFirstAux seen l).Pairwise (fun a b => firstIdx a l < firstIdx b l)
  | [], _ => List.Pairwise.nil
  | x :: xs, seen => by
    unfold dedupFirstAux
    by_cases hx : x ∈ seen
    · rw [if_pos hx]
      refine (dedupFirstAux_pairwise xs seen).imp_of_mem ?_
      intro a b ha hb hlt
      have ha' := (dedupFirstAux_mem xs seen a).mp ha
      have hb' := (dedupFirstAux_mem xs seen b).mp hb
      have hax : ¬(x = a) := fun he => ha'.2 (he ▸ hx)
      have hbx : ¬(x = b) := fun he => hb'.2 (he ▸ hx)
      simpa [firstIdx, hax, hbx] using Nat.succ_lt_succ hlt
    · rw [if_neg hx]
      refine List.Pairwise.cons ?_ ?_
      · intro b hb
        have hb' := (dedupFirstAux_mem xs (x :: seen) b).mp hb
        have hbx : ¬(x = b) := fun he => hb'.2 (he ▸ List.mem_cons_self x seen)
        simp [firstIdx, hbx]
      · refine (dedupFirstAux_pairwise xs (x :: seen)).imp_of_mem ?_
        intro a b ha hb hlt
        have ha' := (dedupFirstAux_mem xs (x :: seen) a).mp ha
        have hb' := (dedupFirstAux_mem xs (x :: seen) b).mp hb
        have hax : ¬(x = a) := fun he => ha'.2 (he ▸ List.mem_cons_self x seen)
        have hbx : ¬(x = b) := fun he => hb'.2 (he ▸ List.mem_cons_self x seen)
        simpa [firstIdx, hax, hbx] using Nat.succ_lt_succ hlt

theorem dedupFirstAux_nodup (l seen : List String) : (dedupFirstAux seen l).Nodup :=
  (dedupFirstAux_pairwise l seen).imp fun hlt he => absurd (he ▸ hlt) (Nat.lt_irrefl _)

theorem dedupFirstAux_fix : ∀ (l seen : List String), (∀ a ∈ l, a ∉ seen) → l.Nodup →
    dedupFirstAux seen l = l
  | [], _, _, _ => rfl
  | x :: xs, seen, hs, hnd => by
    unfold dedupFirstAux
    rw [if_neg (hs x (List.mem_cons_self x xs))]
    rw [dedupFirstAux_fix xs (x :: seen) ?_ (List.nodup_cons.mp hnd).2]
    intro a ha hmem
    rcases List.mem_cons.mp hmem with rfl | hmem
    · exact (List.nodup_cons.mp hnd).1 ha
    · exact hs a (List.mem_cons_of_mem _ ha) hmem

theorem dedupFirst_idem (l : List String) : dedupFirst (dedupFirst l) = dedupFirst l :=
  dedupFirstAux_fix _ [] (by simp) (dedupFirstAux_nodup l [])

theorem dedupBucket_inv : ∀ (l : List PyVal) (seen : List (List (String × PyVal)))
    (r : List PyVal), dedupBucket l seen = Except.ok r →
    (∀ x ∈ r, goodIssue x = true) ∧ (r.map keyOf).Nodup ∧ ∀ k ∈ r.map keyOf, k ∉ seen
  | [], seen, r => by
    intro h
    simp only [dedupBucket, Except.ok.injEq] at h
    subst h
    exact ⟨by simp, by simp, by simp⟩
  | x :: rest, seen, r => by
    intro h
    rcases x with n | s | xs | kvs
    · simp [dedupBucket] at h
    · simp [dedupBucket] at h
    · simp [dedupBucket] at h
    · simp only [dedupBucket] at h
      by_cases hh : ((issueKey kvs).all fun kv => hashableVal kv.2) = true
      · rw [if_pos hh] at h
        by_cases hm : issueKey kvs ∈ seen
        · rw [if_pos hm] at h
          exact dedupBucket_inv rest seen r h
        · rw [if_neg hm] at h
          rcases hd : dedupBucket rest (issueKey kvs :: seen) with u | r'
          · rw [hd] at h
            cases h
          · rw [hd] at h
            obtain ⟨hg, hnd, hns⟩ := dedupBucket_inv rest (issueKey kvs :: seen) r' hd
            simp only [Except.ok.injEq] at h
            subst h
            refine ⟨?_, ?_, ?_⟩
            · intro y hy
              rcases List.mem_cons.mp hy with rfl | hy
              · have : goodIssue (PyVal.dict kvs) = ((issueKey kvs).all fun kv => hashableVal kv.2) :=
                  (sortedItems_all _ kvs).symm
                rw [this, hh]
              · exact hg y hy
            · rw [List.map_cons]
              refine List.nodup_cons.mpr ⟨?_, hnd⟩
              intro hmem
              have hk := hns _ hmem
              exact hk (List.mem_cons_self _ _)
            · rw [List.map_cons]
              intro k hk
              rcases List.mem_cons.mp hk with rfl | hk
              · exact hm
              · exact fun hks => hns _ hk (List.mem_cons_of_mem _ hks)
      · rw [if_neg hh] at h
        cases h

theorem dedupBucket_fix : ∀ (r : List PyVal) (seen : List (List (String × PyVal))),
    (∀ x ∈ r, goodIssue x = true) → (r.map keyOf).Nodup → (∀ k ∈ r.map keyOf, k ∉ seen) →
    dedupBucket r seen = Except.ok r
  | [], _, _, _, _ => rfl
  | x :: rest, seen, hg, hnd, hs => by
    rcases x with n | s | xs | kvs
    · exact absurd (hg _ (List.mem_cons_self _ _)) (by simp [goodIssue])
    · exact absurd (hg _ (List.mem_cons_self _ _)) (by simp [goodIssue])
    · exact absurd (hg _ (List.mem_cons_self _ _)) (by simp [goodIssue])
    · simp only [dedupBucket]
      have hgx : goodIssue (PyVal.dict kvs) = true := hg _ (List.mem_cons_self _ _)
      have hall : ((issueKey kvs).all fun kv => hashableVal kv.2) = true := by
        rw [issueKey, sortedItems_all]
        exact hgx
      rw [if_pos hall]
      have hks : issueKey kvs ∉ seen := by
        have := hs (keyOf (PyVal.dict kvs)) (by simp)
        simpa [keyOf] using this
      rw [if_neg hks]
      have hnd' : (keyOf (PyVal.dict kvs) :: rest.map keyOf).Nodup := by
        simpa only [List.map_cons] using hnd
      obtain ⟨hhd, htl⟩ := List.nodup_cons.mp hnd'
      rw [dedupBucket_fix rest (issueKey kvs :: seen) ?_ ?_ ?_]
      · intro y hy
        exact hg y (List.mem_cons_of_mem _ hy)
      · exact htl
      · intro k hk hmem
        rcases List.mem_cons.mp hmem with rfl | hmem
        · exact hhd hk
        · refine hs k ?_ hmem
          rw [List.map_cons]
          exact List.mem_cons_of_mem _ hk

/-! ## Claim C8: idempotence of the final dedup pass -/

/-- Claim C8: the final dedup pass is idempotent — on buckets and
suggestions it has already produced (two issues of a bucket being
duplicates exactly when their sorted field sets coincide, first occurrence
kept, order preserved) it returns its input unchanged. -/
theorem final_dedup_idempotent (a b : Aggregated) (h : finalDedup a = Except.ok b) :
    finalDedup b = Except.ok b := by
  unfold finalDedup at h ⊢
  rcases e1 : dedupBucket a.high_priority [] with u1 | b1 <;> rw [e1] at h
  · cases h
  rcases e2 : dedupBucket a.medium_priority [] with u2 | b2 <;> rw [e2] at h
  · cases h
  rcases e3 : dedupBucket a.low_priority [] with u3 | b3 <;> rw [e3] at h
  · cases h
  obtain ⟨g1, n1, s1⟩ := dedupBucket_inv _ _ _ e1
  obtain ⟨g2, n2, s2⟩ := dedupBucket_inv _ _ _ e2
  obtain ⟨g3, n3, s3⟩ := dedupBucket_inv _ _ _ e3
  simp only [Except.ok.injEq] at h
  subst h
  rw [dedupBucket_fix b1 [] g1 n1 (by simp), dedupBucket_fix b2 [] g2 n2 (by simp),
    dedupBucket_fix b3 [] g3 n3 (by simp), dedupFirst_idem]

/-- Claim C8, witness: a bucket holding the same issue twice with its two
fields in different insertion orders, plus a duplicated suggestion, dedups
to one issue and one suggestion, and a second pass leaves that output
unchanged. -/
theorem final_dedup_idempotent_witness :
    finalDedup ⟨[PyVal.dict [("description", PyVal.str "x"), ("severity", PyVal.str "high")],
                 PyVal.dict [("severity", PyVal.str "high"), ("description", PyVal.str "x")]],
                [], [], ["A", "A"]⟩
      = Except.ok ⟨[PyVal.dict [("description", PyVal.str "x"), ("severity", PyVal.str "high")]],
                   [], [], ["A"]⟩ ∧
    finalDedup ⟨[PyVal.dict [("description", PyVal.str "x"), ("severity", PyVal.str "high")]],
                [], [], ["A"]⟩
      = Except.ok ⟨[PyVal.dict [("description", PyVal.str "x"), ("severity", PyVal.str "high")]],
                   [], [], ["A"]⟩ :=
  ⟨by decide,
   final_dedup_idempotent
     ⟨[PyVal.dict [("description", PyVal.str "x"), ("severity", PyVal.str "high")],
       PyVal.dict [("severity", PyVal.str "high"), ("description", PyVal.str "x")]],
      [], [], ["A", "A"]⟩ _ (by decide)⟩

/-! ## Claim C7: suggestions are deduplicated in first-seen order -/

/-- Claim C7: whenever `aggregate` returns a report, its `suggestions` list
has no duplicates, contains exactly the suggestion texts accumulated from
the results in input order, and lists them by strictly increasing position
of first occurrence in that accumulated sequence. -/
theorem suggestions_nodup_first_seen (p : String → Option PyVal) (rs : List PyVal)
    (rep : Aggregated) (h : aggregate_reviews p rs = Except.ok rep) :
    rep.suggestions.Nodup ∧
    (∀ s : String, s ∈ rep.suggestions ↔
      s ∈ (rs.foldl (processResult p) emptyAgg).suggestions) ∧
    rep.suggestions.Pairwise (fun a b =>
      firstIdx a (rs.foldl (processResult p) emptyAgg).suggestions <
      firstIdx b (rs.foldl (processResult p) emptyAgg).suggestions) := by
  have hsugg : rep.suggestions = dedupFirst (rs.foldl (processResult p) emptyAgg).suggestions := by
    unfold aggregate_reviews finalDedup at h
    rcases e1 : dedupBucket (rs.foldl (processResult p) emptyAgg).high_priority [] with u1 | b1 <;>
      rw [e1] at h
    · cases h
    rcases e2 : dedupBucket (rs.foldl (processResult p) emptyAgg).medium_priority [] with u2 | b2 <;>
      rw [e2] at h
    · cases h
    rcases e3 : dedupBucket (rs.foldl (processResult p) emptyAgg).low_priority [] with u3 | b3 <;>
      rw [e3] at h
    · cases h
    simp only [Except.ok.injEq] at h
    subst h
    rfl
  refine ⟨?_, ?_, ?_⟩
  · rw [hsugg]
    exact dedupFirstAux_nodup _ _
  · intro s
    rw [hsugg]
    unfold dedupFirst
    rw [dedupFirstAux_mem]
    simp
  · rw [hsugg]
    exact dedupFirstAux_pairwise _ _

/-- Claim C7, witness: suggestions appearing as "A","B","A","C" across two
results are accumulated in that order and reported as "A","B","C". -/
theorem suggestions_nodup_first_seen_witness :
    (aggregate_reviews noParse
      [PyVal.dict [("suggestions", PyVal.list [PyVal.str "A", PyVal.str "B"])],
       PyVal.dict [("suggestions", PyVal.list [PyVal.str "A", PyVal.str "C"])]]
      = Except.ok ⟨[], [], [], ["A", "B", "C"]⟩) ∧
    (([PyVal.dict [("suggestions", PyVal.list [PyVal.str "A", PyVal.str "B"])],
       PyVal.dict [("suggestions", PyVal.list [PyVal.str "A", PyVal.str "C"])]].foldl
        (processResult noParse) emptyAgg).suggestions = ["A", "B", "A", "C"]) ∧
    (["A", "B", "C"] : List String).Nodup :=
  ⟨by decide, by decide,
   (suggestions_nodup_first_seen noParse
     [PyVal.dict [("suggestions", PyVal.list [PyVal.str "A", PyVal.str "B"])],
      PyVal.dict [("suggestions", PyVal.list [PyVal.str "A", PyVal.str "C"])]]
     ⟨[], [], [], ["A", "B", "C"]⟩ (by decide)).1⟩

/-! ## Claim C2: heuristic extraction from text blobs -/

theorem nonblankStripped_ne_empty (lines : List (List Char)) (t : String)
    (ht : t ∈ nonblankStripped lines) : t ≠ "" := by
  unfold nonblankStripped at ht
  rw [List.mem_filterMap] at ht
  obtain ⟨l, _, hl⟩ := ht
  by_cases he : (stripChars l).isEmpty
  · simp [he] at hl
  · simp [he] at hl
    intro hcon
    rw [← hl] at hcon
    have hdata : stripChars l = [] := by
      have := congrArg String.data hcon
      simpa using this
    rw [hdata] at he
    exact he rfl

theorem classify_fallback_step (agg : Aggregated) (x : String) (rest : List PyVal) :
    classifyIssues agg (mkFallbackIssue x :: rest) =
      classifyIssues { agg with medium_priority := agg.medium_priority ++ [mkFallbackIssue x] } rest := by
  simp only [classifyIssues, mkFallbackIssue, pyGet, pyFind]
  rw [if_neg (show ¬("description" : String) = "severity" by decide)]
  simp only [if_true, Option.getD_some]
  rw [if_neg (show ¬pyLower "medium" = "high" by decide),
      if_pos (show pyLower "medium" = "medium" by decide)]

theorem finalDedup_ok (a : Aggregated) (h m l : List PyVal)
    (hh : dedupBucket a.high_priority [] = Except.ok h)
    (hm : dedupBucket a.medium_priority [] = Except.ok m)
    (hl : dedupBucket a.low_priority [] = Except.ok l) :
    finalDedup a = Except.ok ⟨h, m, l, dedupFirst a.suggestions⟩ := by
  unfold finalDedup
  rw [hh, hm, hl]

/-- Claim C2, counterexample: the text "Issues:" newline "A" newline "B"
newline "Suggestions:" newline "C" has exactly two non-blank lines between
the markers.  The claim says the report gets exactly the two issues "A" and
"B" and the suggestion "C", with the marker lines not counted; instead the
slice `result[issues_start:suggestions_start]` starts at the marker itself,
so the line "Issues:" becomes a third (first) issue and "Suggestions:"
becomes a first suggestion. -/
theorem heuristic_marker_lines_counted :
    aggregate_reviews noParse [PyVal.str "Issues:\nA\nB\nSuggestions:\nC"]
      = Except.ok ⟨[], [mkFallbackIssue "Issues:", mkFallbackIssue "A", mkFallbackIssue "B"],
          [], ["Suggestions:", "C"]⟩ := by
  decide

/-- Claim C2 (amended): for a text result that fails strict parsing and has
an "issues" marker at `i` and a "suggestions" marker at `j`, the non-blank
stripped lines of the slice from `i` to `j` — which begin with the tail of
the marker line from the marker onward — each become a medium-severity
issue, and the non-blank stripped lines from `j` on — likewise starting
with the suggestions-marker fragment — become the suggestions.  With two
non-blank lines between the marker lines the report thus has three medium
issues, not two, the marker fragments included (stated here for distinct
lines, so that the final dedup keeps all of them). -/
theorem heuristic_extraction_with_markers (p : String → Option PyVal) (s : String)
    (i j : Nat) (x y z : String)
    (hp : p s = Option.none)
    (hi : findSub "issues".data (lowerChars s.data) = some i)
    (hj : findSub "suggestions".data (lowerChars s.data) = some j)
    (hiss : heurIssueLines s.data i j = [x, y, z])
    (hxy : x ≠ y) (hxz : x ≠ z) (hyz : y ≠ z)
    (hnod : (heurSuggLines s.data j).Nodup) :
    aggregate_reviews p [PyVal.str s]
      = Except.ok ⟨[], [mkFallbackIssue x, mkFallbackIssue y, mkFallbackIssue z], [],
          heurSuggLines s.data j⟩ := by
  have hnorm : normalizeStr p s = PyVal.dict
      [("issues", PyVal.list [mkFallbackIssue x, mkFallbackIssue y, mkFallbackIssue z]),
       ("suggestions", PyVal.list ((heurSuggLines s.data j).map PyVal.str))] := by
    unfold normalizeStr
    simp only [hp, hi, hj]
    rw [hiss]
    simp
  have hproc : processResult p emptyAgg (PyVal.str s) =
      ⟨[], [mkFallbackIssue x, mkFallbackIssue y, mkFallbackIssue z], [], heurSuggLines s.data j⟩ := by
    show (match normalizeStr p s with
          | PyVal.dict kvs => processDict emptyAgg kvs
          | _ => emptyAgg) = _
    rw [hnorm]
    show processDict emptyAgg _ = _
    unfold processDict
    simp only [pyGet, pyFind]
    rw [if_neg (show ¬("issues" : String) = "review" by decide),
        if_neg (show ¬("suggestions" : String) = "review" by decide)]
    simp only [Option.getD_none]
    show processInner emptyAgg _ = _
    unfold processInner
    simp only [pyGet, pyFind]
    rw [if_neg (show ¬("issues" : String) = "suggestions" by decide)]
    simp only [if_true, Option.getD_some, pyIter]
    rw [classify_fallback_step, classify_fallback_step, classify_fallback_step]
    simp only [classifyIssues]
    rw [List.filter_eq_self.mpr ?_]
    · rw [List.map_map]
      have hid : (pyStr ∘ PyVal.str) = fun t : String => t := by
        funext t
        rfl
      rw [hid, List.map_id']
      simp [emptyAgg]
    · intro a ha
      rcases List.mem_map.mp ha with ⟨t, ht, rfl⟩
      have hne := nonblankStripped_ne_empty _ _ ht
      simp [pyTruthy, hne]
  have hk : ∀ t : String, keyOf (mkFallbackIssue t) =
      [("description", PyVal.str t), ("severity", PyVal.str "medium")] := by
    intro t
    simp only [keyOf, mkFallbackIssue, issueKey, sortedItems, insertByKey]
    rw [if_pos (show strLe "description" "severity" = true by decide)]
  have hmed : dedupBucket [mkFallbackIssue x, mkFallbackIssue y, mkFallbackIssue z] [] =
      Except.ok [mkFallbackIssue x, mkFallbackIssue y, mkFallbackIssue z] := by
    apply dedupBucket_fix
    · intro w hw
      rcases List.mem_cons.mp hw with rfl | hw
      · rfl
      rcases List.mem_cons.mp hw with rfl | hw
      · rfl
      rcases List.mem_cons.mp hw with rfl | hw
      · rfl
      · cases hw
    · rw [List.map_cons, List.map_cons, List.map_cons, List.map_nil, hk, hk, hk]
      simp [List.nodup_cons, hxy, hxz, hyz]
    · simp
  show finalDedup ([PyVal.str s].foldl (processResult p) emptyAgg) = _
  rw [show [PyVal.str s].foldl (processResult p) emptyAgg
        = processResult p emptyAgg (PyVal.str s) from rfl, hproc]
  have hstep := finalDedup_ok
    ⟨[], [mkFallbackIssue x, mkFallbackIssue y, mkFallbackIssue z], [], heurSuggLines s.data j⟩
    [] [mkFallbackIssue x, mkFallbackIssue y, mkFallbackIssue z] [] rfl hmed rfl
  rw [hstep]
  have hsug : dedupFirst (heurSuggLines s.data j) = heurSuggLines s.data j :=
    dedupFirstAux_fix (heurSuggLines s.data j) [] (by simp) hnod
  simp only [hsug]

/-- Claim C2, witness: the text "issues" newline "foo" newline "bar" newline
"suggestions" newline "baz" yields the three medium issues "issues", "foo",
"bar" (marker fragment included) and the suggestions "suggestions", "baz". -/
theorem heuristic_extraction_with_markers_witness :
    noParse "issues\nfoo\nbar\nsuggestions\nbaz" = Option.none ∧
    findSub "issues".data (lowerChars "issues\nfoo\nbar\nsuggestions\nbaz".data) = some 0 ∧
    findSub "suggestions".data (lowerChars "issues\nfoo\nbar\nsuggestions\nbaz".data) = some 15 ∧
    heurIssueLines "issues\nfoo\nbar\nsuggestions\nbaz".data 0 15 = ["issues", "foo", "bar"] ∧
    heurSuggLines "issues\nfoo\nbar\nsuggestions\nbaz".data 15 = ["suggestions", "baz"] ∧
    aggregate_reviews noParse [PyVal.str "issues\nfoo\nbar\nsuggestions\nbaz"]
      = Except.ok ⟨[], [mkFallbackIssue "issues", mkFallbackIssue "foo", mkFallbackIssue "bar"], [],
          heurSuggLines "issues\nfoo\nbar\nsuggestions\nbaz".data 15⟩ :=
  ⟨rfl, by decide, by decide, by decide, by decide,
   heuristic_extraction_with_markers noParse "issues\nfoo\nbar\nsuggestions\nbaz" 0 15
     "issues" "foo" "bar" rfl (by decide) (by decide) (by decide) (by decide) (by decide)
     (by decide) (by decide)⟩
